import Mathlib

/-!
Verification of the weather-data downloader app (`src/app.py`).

The app's logical core is embedded shallowly:

* the frequency-indexed table configuration (lines 79-86),
* the column resolver and its empty-list failure contract (lines 57-68, 104-106),
* the selectable-column computation and the empty-selection warning
  (lines 108-123),
* the query builder and fetch (lines 128-151), with the relational
  semantics of the constructed `SELECT` statement modelled explicitly
  (the warehouse that executes the statement is external to the repo),
* the CSV export (line 161) together with a re-parser,
* the min-max normalizer used for plotting (lines 213-218).
-/

namespace WD

/-- The two data frequencies offered by the radio control (line 76). -/
inductive Frequency
  | daily
  | weekly
deriving DecidableEq, Repr

/-- Table name per frequency (lines 80, 84). -/
def table_name : Frequency → String
  | .daily => "weather_daily"
  | .weekly => "weather_weekly"

/-- Designated date column per frequency (lines 81, 85). -/
def date_column : Frequency → String
  | .daily => "RECORD_DATE"
  | .weekly => "RECORD_WEEK"

/-- Hidden (always included, never selectable) columns per frequency
(lines 82, 86). -/
def hidden_columns : Frequency → List String
  | .daily => ["DAILY_WEATHER_ID", "RECORD_DATE"]
  | .weekly => ["WEEKLY_WEATHER_ID", "RECORD_WEEK"]

/-- A cell value in the warehouse: SQL NULL, a text value, a numeric
value (idealised as a rational), or a date (day ordinal). -/
inductive Value
  | null
  | str (s : String)
  | num (q : ℚ)
  | date (d : Int)
deriving DecidableEq, Repr

/-- A database row: a finite mapping from column name to value. -/
abbrev DBRow := List (String × Value)

/-- Value of a column in a row (`NULL` when absent). -/
def rowGet (r : DBRow) (c : String) : Value := (r.lookup c).getD Value.null

/-- The tabular result of a fetch: an ordered column list and ordered
rows, each row a mapping from column name to value. -/
structure Table where
  columns : List String
  rows : List DBRow
deriving DecidableEq, Repr

/-- Line 130: `columns_to_select = hidden_columns + selected_columns`. -/
def columns_to_select (freq : Frequency) (selected_columns : List String) : List String :=
  hidden_columns freq ++ selected_columns

/-- Line 109: exclude the hidden columns and `COUNTRY_CODE` from the
selectable list. -/
def selectable_columns (freq : Frequency) (all_columns : List String) : List String :=
  all_columns.filter (fun col => !(hidden_columns freq).contains col && col != "COUNTRY_CODE")

/-- Lines 122-123: the app emits a soft warning (not an error) exactly
when the selected-column list is empty. -/
def empty_selection_warning (selected_columns : List String) : Bool :=
  selected_columns == []

/-- The `BETWEEN` predicate of the query's `WHERE` clause, applied to the
date column: true iff the value is a date lying in `[lo, hi]`. -/
def date_between (lo hi : Int) : Value → Bool
  | .date d => decide (lo ≤ d ∧ d ≤ hi)
  | _ => false

/-- The `WHERE` clause of the query built at lines 131-137:
`COUNTRY_CODE = country AND date_column BETWEEN lo AND hi`. -/
def row_matches (freq : Frequency) (country : String) (lo hi : Int) (r : DBRow) : Bool :=
  decide (rowGet r "COUNTRY_CODE" = Value.str country) &&
    date_between lo hi (rowGet r (date_column freq))

/-- Sort key used by `ORDER BY date_column`: the day ordinal of the date
column (0 for non-date values, which never occur in filtered rows). -/
def row_date_key (dc : String) (r : DBRow) : Int :=
  match rowGet r dc with
  | .date d => d
  | _ => 0

/-- Insert an element into a key-sorted list (ascending). -/
def insertByKey (key : α → Int) (x : α) : List α → List α
  | [] => [x]
  | y :: ys => if key x ≤ key y then x :: y :: ys else y :: insertByKey key x ys

/-- Insertion sort by an integer key, ascending — the semantics of the
query's `ORDER BY` clause. -/
def sortByKey (key : α → Int) : List α → List α
  | [] => []
  | x :: xs => insertByKey key x (sortByKey key xs)

/-- `SELECT`-list projection: keep exactly the requested columns, in the
requested order. -/
def project_row (cols : List String) (r : DBRow) : DBRow :=
  cols.map (fun c => (c, rowGet r c))

/-- The rows satisfying the `WHERE` clause, in `ORDER BY date_column`
order, before projection. -/
def fetch_rows (db : List DBRow) (freq : Frequency) (country : String) (lo hi : Int) :
    List DBRow :=
  sortByKey (row_date_key (date_column freq)) (db.filter (row_matches freq country lo hi))

/-- The fetch operation of lines 128-141: build the projection list
(line 130) and run the constructed `SELECT` statement. The relational
semantics of the statement (filter by country and date range, sort
ascending by the date column, project the listed columns) is modelled
here because the warehouse executing it is external to the repository. -/
def run_fetch (db : List DBRow) (freq : Frequency) (country : String) (lo hi : Int)
    (selected_columns : List String) : Table :=
  { columns := columns_to_select freq selected_columns,
    rows := (fetch_rows db freq country lo hi).map
      (project_row (columns_to_select freq selected_columns)) }

/-- The single error kind raised by the data-source boundary
(connectivity, authentication, malformed query, permission). -/
structure DataSourceError where
  msg : String
deriving DecidableEq, Repr

/-- Lines 57-68: the column resolver issues a zero-row probe and reads
the column names from the cursor metadata; on any error it reports the
error and returns an empty list. The probe's outcome (the warehouse is
external) is the argument. -/
def get_table_columns (probe : Except DataSourceError (List String)) : List String :=
  match probe with
  | .ok cols => cols
  | .error _ => []

/-- Outcome of the column-resolution step of the interactive flow. -/
inductive AppFlow
  | halted
  | proceed (all_columns : List String)
deriving DecidableEq, Repr

/-- Lines 104-106: `all_columns = get_table_columns(table_name)`; an
empty list halts the app (`st.stop()`), so nothing downstream runs. -/
def column_resolution_step (probe : Except DataSourceError (List String)) : AppFlow :=
  if get_table_columns probe = [] then .halted else .proceed (get_table_columns probe)

/-- Lines 138-151: on a successful fetch the result is stored in the
session slot `st.session_state` at key `df` and a success message shown;
on an exception an error message is shown and the slot is not written.
Returns the new slot contents and the surfaced error, if any. -/
def fetch_and_store (prev : Option Table) (result : Except DataSourceError Table) :
    Option Table × Option DataSourceError :=
  match result with
  | .ok df => (some df, none)
  | .error e => (prev, some e)

/-- The query text built by the f-string at lines 131-137; `\x27` is the
single-quote character of the SQL literals. -/
def build_query (dbName schemaName : String) (freq : Frequency)
    (selected_columns : List String) (country : String) (d0 d1 : String) : String :=
  "\n    SELECT " ++ String.intercalate ", " (columns_to_select freq selected_columns) ++
  "\n    FROM " ++ dbName ++ "." ++ schemaName ++ "." ++ table_name freq ++
  "\n    WHERE COUNTRY_CODE = \x27" ++ country ++
  "\x27\n      AND " ++ date_column freq ++
  " BETWEEN \x27" ++ d0 ++ "\x27 AND \x27" ++ d1 ++
  "\x27\n    ORDER BY " ++ date_column freq ++ "\n    "

/-- Line 141: `pd.read_sql(query, conn)` — the statement text together
with the list of bound parameters passed alongside it, which is empty
(no `params` argument is given). -/
def read_sql_call (query : String) : String × List String :=
  (query, [])

/-- Does `pat` occur at the start of `l`? -/
def starts_with (pat l : List Char) : Bool :=
  match pat, l with
  | [], _ => true
  | _ :: _, [] => false
  | p :: ps, c :: cs => p == c && starts_with ps cs

/-- Does `pat` occur contiguously anywhere in `l`? -/
def occurs_in (pat : List Char) : List Char → Bool
  | [] => pat.isEmpty
  | c :: cs => starts_with pat (c :: cs) || occurs_in pat cs

/-- Line 192: the plot's guard — true when the fetched table lacks the
required date column. -/
def plot_date_check_fails (df : Table) (dc : String) : Bool :=
  !(df.columns.contains dc)

/-- Minimum of a numeric series (`series.min()`); 0 on the empty series,
which the normalizer never distinguishes. -/
def smin : List ℚ → ℚ
  | [] => 0
  | x :: xs => xs.foldl min x

/-- Maximum of a numeric series (`series.max()`). -/
def smax : List ℚ → ℚ
  | [] => 0
  | x :: xs => xs.foldl max x

/-- Lines 213-218: min-max normalization of one selected column —
`(series - series.min()) / (series.max() - series.min())` elementwise
when max and min differ, the series unchanged otherwise. -/
def norm_series (s : List ℚ) : List ℚ :=
  if smax s ≠ smin s then s.map (fun v => (v - smin s) / (smax s - smin s)) else s

/-- Join chunks with a separator character (no trailing separator). -/
def joinSep (sep : Char) : List (List Char) → List Char
  | [] => []
  | [x] => x
  | x :: y :: xs => x ++ sep :: joinSep sep (y :: xs)

/-- Split at every occurrence of the separator character; always returns
at least one (possibly empty) chunk. -/
def splitSep (sep : Char) : List Char → List (List Char)
  | [] => [[]]
  | c :: cs =>
    match splitSep sep cs with
    | [] => [[]]
    | r :: rs => if c = sep then [] :: r :: rs else (c :: r) :: rs

/-- One CSV line: cells joined by commas. -/
def csv_line (cells : List String) : List Char :=
  joinSep ',' (cells.map String.data)

/-- Line 161: `df.to_csv(index=False)` — a header line of column names,
one comma-separated line per row, no index column, each line terminated
by a newline. -/
def to_csv (columns : List String) (rows : List (List String)) : String :=
  String.mk (joinSep '\n' ((columns :: rows).map csv_line) ++ [ '\n' ])

/-- Re-parse CSV text: split into lines (ignoring blank lines, as a CSV
reader does), the first line giving the column names and the rest the
rows, each split at commas. -/
def parse_csv (s : String) : List String × List (List String) :=
  match (splitSep '\n' s.data).filter (fun l => !l.isEmpty) with
  | [] => ([], [])
  | header :: rest =>
    ((splitSep ',' header).map String.mk,
      rest.map (fun l => (splitSep ',' l).map String.mk))

/-- Textual rendering of a cell value for CSV export. -/
def valueText : Value → String
  | .null => ""
  | .str s => s
  | .num q => if q.den = 1 then toString q.num else toString q.num ++ "/" ++ toString q.den
  | .date d => toString d

/-- The string cells of a Result Table, row-aligned. -/
def table_cells (t : Table) : List (List String) :=
  t.rows.map (fun row => row.map (fun p => valueText p.2))

/-- CSV export of a Result Table (line 161). -/
def table_to_csv (t : Table) : String :=
  to_csv t.columns (table_cells t)

/-- A table is CSV-safe when no cell or column name contains a comma or
newline and no serialized line is empty, so no quoting is needed. -/
def csv_safe (columns : List String) (rows : List (List String)) : Bool :=
  (columns :: rows).all (fun row =>
    !(csv_line row).isEmpty &&
      row.all (fun cell => !cell.data.contains ',' && !cell.data.contains '\n'))

theorem mem_insertByKey {α : Type _} (key : α → Int) (x a : α) (l : List α) :
    a ∈ insertByKey key x l ↔ a = x ∨ a ∈ l := by
  induction l with
  | nil => simp [insertByKey]
  | cons y ys ih =>
    by_cases h : key x ≤ key y
    · simp [insertByKey, h, List.mem_cons]
    · simp [insertByKey, h, List.mem_cons, ih]
      tauto

theorem mem_sortByKey {α : Type _} (key : α → Int) (a : α) (l : List α) :
    a ∈ sortByKey key l ↔ a ∈ l := by
  induction l with
  | nil => simp [sortByKey]
  | cons x xs ih => simp [sortByKey, mem_insertByKey, ih, List.mem_cons]

theorem pairwise_insertByKey {α : Type _} (key : α → Int) (x : α) (l : List α)
    (h : l.Pairwise (fun a b => key a ≤ key b)) :
    (insertByKey key x l).Pairwise (fun a b => key a ≤ key b) := by
  induction l with
  | nil => simp [insertByKey]
  | cons y ys ih =>
    rcases List.pairwise_cons.mp h with ⟨hy, hys⟩
    by_cases hxy : key x ≤ key y
    · rw [insertByKey, if_pos hxy]
      refine List.Pairwise.cons ?_ h
      intro z hz
      rcases List.mem_cons.mp hz with rfl | hz
      · exact hxy
      · exact le_trans hxy (hy z hz)
    · rw [insertByKey, if_neg hxy]
      refine List.Pairwise.cons ?_ (ih hys)
      intro z hz
      rcases (mem_insertByKey key x z ys).mp hz with rfl | hz
      · exact le_of_not_le hxy
      · exact hy z hz

theorem pairwise_sortByKey {α : Type _} (key : α → Int) (l : List α) :
    (sortByKey key l).Pairwise (fun a b => key a ≤ key b) := by
  induction l with
  | nil => simp [sortByKey]
  | cons x xs ih => exact pairwise_insertByKey key x _ ih

theorem rowGet_project (cols : List String) (r : DBRow) (c : String) (h : c ∈ cols) :
    rowGet (project_row cols r) c = rowGet r c := by
  induction cols with
  | nil => cases h
  | cons d ds ih =>
    rw [project_row, List.map_cons]
    by_cases hcd : c = d
    · subst hcd
      simp [rowGet, List.lookup]
    · have hb : (c == d) = false := beq_eq_false_iff_ne.mpr hcd
      have hc : c ∈ ds := by
        rcases List.mem_cons.mp h with rfl | hc
        · exact absurd rfl hcd
        · exact hc
      have hrec := ih hc
      rw [project_row] at hrec
      simpa [rowGet, List.lookup, hb] using hrec

theorem row_date_key_project (cols : List String) (r : DBRow) (dc : String) (h : dc ∈ cols) :
    row_date_key dc (project_row cols r) = row_date_key dc r := by
  rw [row_date_key, row_date_key, rowGet_project cols r dc h]

theorem date_column_mem_hidden (freq : Frequency) :
    date_column freq ∈ hidden_columns freq := by
  cases freq <;> simp [date_column, hidden_columns]

theorem date_column_mem_select (freq : Frequency) (selected : List String) :
    date_column freq ∈ columns_to_select freq selected := by
  rw [columns_to_select]
  exact List.mem_append_left _ (date_column_mem_hidden freq)

/-- C1: for every fetch input, the Result Table's column order is
exactly `hidden_columns ++ selected_columns` — the table's fixed hidden
columns first, in their fixed order, then the user-selected columns in
selection order (line 130). -/
theorem c1_result_columns_order (db : List DBRow) (freq : Frequency) (country : String)
    (lo hi : Int) (selected : List String) :
    (run_fetch db freq country lo hi selected).columns =
      hidden_columns freq ++ selected := rfl

/-- C2: every row the fetch returns comes from a source row whose
`COUNTRY_CODE` equals the requested country and whose date lies within
`[lo, hi]`; the projected row still carries that in-range date, the
result rows are exactly the projections of the filtered-and-sorted
source rows, and the result rows are pairwise non-decreasing in the
date column (lines 131-137). -/
theorem c2_fetch_filter_and_sorted (db : List DBRow) (freq : Frequency) (country : String)
    (lo hi : Int) (selected : List String) (r : DBRow)
    (hr : r ∈ fetch_rows db freq country lo hi) :
    rowGet r "COUNTRY_CODE" = Value.str country ∧
    date_between lo hi (rowGet r (date_column freq)) = true ∧
    date_between lo hi
      (rowGet (project_row (columns_to_select freq selected) r) (date_column freq)) = true ∧
    (run_fetch db freq country lo hi selected).rows =
      (fetch_rows db freq country lo hi).map (project_row (columns_to_select freq selected)) ∧
    ((run_fetch db freq country lo hi selected).rows).Pairwise
      (fun a b => row_date_key (date_column freq) a ≤ row_date_key (date_column freq) b) := by
  have hmem : r ∈ db.filter (row_matches freq country lo hi) := by
    rw [fetch_rows] at hr
    exact (mem_sortByKey _ _ _).mp hr
  have hmatch := List.of_mem_filter hmem
  rw [row_matches, Bool.and_eq_true] at hmatch
  obtain ⟨h1, h2⟩ := hmatch
  refine ⟨of_decide_eq_true h1, h2, ?_, rfl, ?_⟩
  · rw [rowGet_project _ _ _ (date_column_mem_select freq selected)]
    exact h2
  · show ((fetch_rows db freq country lo hi).map
      (project_row (columns_to_select freq selected))).Pairwise _
    rw [List.pairwise_map]
    refine (pairwise_sortByKey (row_date_key (date_column freq)) _).imp ?_
    intro a b hab
    rwa [row_date_key_project _ _ _ (date_column_mem_select freq selected),
      row_date_key_project _ _ _ (date_column_mem_select freq selected)]

/-- C5: an empty selection still yields a Result Table whose projection
is exactly the hidden columns; the pipeline raises no error (the fetch
is total on this input) and the caller is shown only the soft warning of
lines 122-123. -/
theorem c5_empty_selection_ok (db : List DBRow) (freq : Frequency) (country : String)
    (lo hi : Int) :
    (run_fetch db freq country lo hi []).columns = hidden_columns freq ∧
    empty_selection_warning [] = true := by
  constructor
  · show columns_to_select freq [] = hidden_columns freq
    rw [columns_to_select, List.append_nil]
  · rfl

/-- C6: when the fetch fails with a `DataSourceError`, the error is
surfaced to the caller and the session's last-fetch slot is left exactly
as it was — no partial overwrite (lines 138-151: the slot is assigned
only on the success path, inside the `try`). -/
theorem c6_error_preserves_session (prev : Option Table) (e : DataSourceError) :
    fetch_and_store prev (Except.error e) = (prev, some e) := rfl

/-- C7: on any data-source error the column resolver returns the empty
list (lines 66-68), and the caller halts the whole flow on an empty list
(lines 104-106), so nothing downstream runs. -/
theorem c7_resolver_error_halts (e : DataSourceError) :
    get_table_columns (Except.error e) = [] ∧
    column_resolution_step (Except.error e) = AppFlow.halted :=
  ⟨rfl, rfl⟩

/-- C10: for both frequencies the designated date column is one of the
hidden columns (lines 79-86), so every fetched Result Table contains it
regardless of the user's selection, and the plot's date-column guard at
line 192 can never fire on a freshly fetched table. -/
theorem c10_date_column_always_present (db : List DBRow) (freq : Frequency) (country : String)
    (lo hi : Int) (selected : List String) :
    date_column freq ∈ hidden_columns freq ∧
    plot_date_check_fails (run_fetch db freq country lo hi selected) (date_column freq) = false := by
  refine ⟨date_column_mem_hidden freq, ?_⟩
  rw [plot_date_check_fails, Bool.not_eq_false']
  exact List.elem_iff.mpr (date_column_mem_select freq selected)

/-- A sample warehouse row used to exercise the fetch pipeline. -/
def wrow : DBRow :=
  [("DAILY_WEATHER_ID", Value.num 1), ("RECORD_DATE", Value.date 5),
    ("COUNTRY_CODE", Value.str "EE"), ("TEMP_AVG", Value.num 3)]

theorem c2_fetch_filter_and_sorted_witness :
    wrow ∈ fetch_rows [wrow] Frequency.daily "EE" 0 10 ∧
    (rowGet wrow "COUNTRY_CODE" = Value.str "EE" ∧
      date_between 0 10 (rowGet wrow (date_column Frequency.daily)) = true ∧
      date_between 0 10
        (rowGet (project_row (columns_to_select Frequency.daily ["TEMP_AVG"]) wrow)
          (date_column Frequency.daily)) = true ∧
      (run_fetch [wrow] Frequency.daily "EE" 0 10 ["TEMP_AVG"]).rows =
        (fetch_rows [wrow] Frequency.daily "EE" 0 10).map
          (project_row (columns_to_select Frequency.daily ["TEMP_AVG"])) ∧
      ((run_fetch [wrow] Frequency.daily "EE" 0 10 ["TEMP_AVG"]).rows).Pairwise
        (fun a b => row_date_key (date_column Frequency.daily) a ≤
          row_date_key (date_column Frequency.daily) b)) :=
  ⟨by decide,
    c2_fetch_filter_and_sorted [wrow] Frequency.daily "EE" 0 10 ["TEMP_AVG"] wrow (by decide)⟩

theorem foldl_min_le_init (a : ℚ) (l : List ℚ) : l.foldl min a ≤ a := by
  induction l generalizing a with
  | nil => exact le_refl a
  | cons x xs ih => exact le_trans (ih (min a x)) (min_le_left a x)

theorem foldl_min_le_of_mem (a b : ℚ) (l : List ℚ) (hb : b ∈ l) : l.foldl min a ≤ b := by
  induction l generalizing a with
  | nil => cases hb
  | cons x xs ih =>
    rcases List.mem_cons.mp hb with rfl | hb
    · exact le_trans (foldl_min_le_init (min a b) xs) (min_le_right a b)
    · exact ih (min a x) hb

theorem foldl_min_mem (a : ℚ) (l : List ℚ) : l.foldl min a = a ∨ l.foldl min a ∈ l := by
  induction l generalizing a with
  | nil => exact Or.inl rfl
  | cons x xs ih =>
    rcases ih (min a x) with h | h
    · rcases le_total a x with hax | hxa
      · exact Or.inl (by rw [List.foldl_cons, h, min_eq_left hax])
      · refine Or.inr ?_
        rw [List.foldl_cons, h, min_eq_right hxa]
        exact List.mem_cons_self x xs
    · exact Or.inr (List.mem_cons_of_mem x h)

theorem le_foldl_max_init (a : ℚ) (l : List ℚ) : a ≤ l.foldl max a := by
  induction l generalizing a with
  | nil => exact le_refl a
  | cons x xs ih => exact le_trans (le_max_left a x) (ih (max a x))

theorem le_foldl_max_of_mem (a b : ℚ) (l : List ℚ) (hb : b ∈ l) : b ≤ l.foldl max a := by
  induction l generalizing a with
  | nil => cases hb
  | cons x xs ih =>
    rcases List.mem_cons.mp hb with rfl | hb
    · exact le_trans (le_max_right a b) (le_foldl_max_init (max a b) xs)
    · exact ih (max a x) hb

theorem foldl_max_mem (a : ℚ) (l : List ℚ) : l.foldl max a = a ∨ l.foldl max a ∈ l := by
  induction l generalizing a with
  | nil => exact Or.inl rfl
  | cons x xs ih =>
    rcases ih (max a x) with h | h
    · rcases le_total a x with hax | hxa
      · refine Or.inr ?_
        rw [List.foldl_cons, h, max_eq_right hax]
        exact List.mem_cons_self x xs
      · exact Or.inl (by rw [List.foldl_cons, h, max_eq_left hxa])
    · exact Or.inr (List.mem_cons_of_mem x h)

theorem smin_mem (s : List ℚ) (h : s ≠ []) : smin s ∈ s := by
  cases s with
  | nil => exact absurd rfl h
  | cons x xs =>
    rw [smin]
    rcases foldl_min_mem x xs with h1 | h1
    · rw [h1]; exact List.mem_cons_self x xs
    · exact List.mem_cons_of_mem x h1

theorem smin_le (s : List ℚ) (v : ℚ) (hv : v ∈ s) : smin s ≤ v := by
  cases s with
  | nil => cases hv
  | cons x xs =>
    rw [smin]
    rcases List.mem_cons.mp hv with rfl | hv
    · exact foldl_min_le_init v xs
    · exact foldl_min_le_of_mem x v xs hv

theorem smax_mem (s : List ℚ) (h : s ≠ []) : smax s ∈ s := by
  cases s with
  | nil => exact absurd rfl h
  | cons x xs =>
    rw [smax]
    rcases foldl_max_mem x xs with h1 | h1
    · rw [h1]; exact List.mem_cons_self x xs
    · exact List.mem_cons_of_mem x h1

theorem le_smax (s : List ℚ) (v : ℚ) (hv : v ∈ s) : v ≤ smax s := by
  cases s with
  | nil => cases hv
  | cons x xs =>
    rw [smax]
    rcases List.mem_cons.mp hv with rfl | hv
    · exact le_foldl_max_init v xs
    · exact le_foldl_max_of_mem x v xs hv

theorem smin_eq_of (l : List ℚ) (hl : l ≠ []) (c : ℚ) (hc : c ∈ l)
    (hall : ∀ v ∈ l, c ≤ v) : smin l = c :=
  le_antisymm (smin_le l c hc) (hall _ (smin_mem l hl))

theorem smax_eq_of (l : List ℚ) (hl : l ≠ []) (c : ℚ) (hc : c ∈ l)
    (hall : ∀ v ∈ l, v ≤ c) : smax l = c :=
  le_antisymm (hall _ (smax_mem l hl)) (le_smax l c hc)

/-- C3: for a column whose max differs from its min, the normalizer maps
each value to `(value - min) / (max - min)` row-aligned with the input
(line 216); consequently the minimum output is exactly 0, the maximum
output is exactly 1, and every output lies in `[0, 1]`. -/
theorem c3_norm_series_minmax (s : List ℚ) (hd : smax s ≠ smin s) :
    norm_series s = s.map (fun v => (v - smin s) / (smax s - smin s)) ∧
    smin (norm_series s) = 0 ∧
    smax (norm_series s) = 1 ∧
    (norm_series s).all (fun v => decide (0 ≤ v) && decide (v ≤ 1)) = true := by
  have hs : s ≠ [] := by
    intro h
    subst h
    exact hd rfl
  have hlt : smin s < smax s :=
    lt_of_le_of_ne (smin_le s (smax s) (smax_mem s hs)) (fun h => hd h.symm)
  have hden : 0 < smax s - smin s := sub_pos.mpr hlt
  have heq : norm_series s = s.map (fun v => (v - smin s) / (smax s - smin s)) := by
    rw [norm_series, if_pos hd]
  have hmapne : s.map (fun v => (v - smin s) / (smax s - smin s)) ≠ [] := by
    intro h
    exact hs (List.map_eq_nil_iff.mp h)
  have h0mem : (0 : ℚ) ∈ s.map (fun v => (v - smin s) / (smax s - smin s)) :=
    List.mem_map.mpr ⟨smin s, smin_mem s hs, by rw [sub_self, zero_div]⟩
  have h1mem : (1 : ℚ) ∈ s.map (fun v => (v - smin s) / (smax s - smin s)) :=
    List.mem_map.mpr ⟨smax s, smax_mem s hs, div_self (ne_of_gt hden)⟩
  have h0 : ∀ v ∈ s.map (fun v => (v - smin s) / (smax s - smin s)), 0 ≤ v := by
    intro v hv
    obtain ⟨u, hu, rfl⟩ := List.mem_map.mp hv
    exact div_nonneg (sub_nonneg.mpr (smin_le s u hu)) (le_of_lt hden)
  have h1 : ∀ v ∈ s.map (fun v => (v - smin s) / (smax s - smin s)), v ≤ 1 := by
    intro v hv
    obtain ⟨u, hu, rfl⟩ := List.mem_map.mp hv
    exact (div_le_one hden).mpr (sub_le_sub_right (le_smax s u hu) (smin s))
  refine ⟨heq, ?_, ?_, ?_⟩
  · rw [heq]
    exact smin_eq_of _ hmapne 0 h0mem h0
  · rw [heq]
    exact smax_eq_of _ hmapne 1 h1mem h1
  · rw [heq, List.all_eq_true]
    intro v hv
    rw [Bool.and_eq_true, decide_eq_true_eq, decide_eq_true_eq]
    exact ⟨h0 v hv, h1 v hv⟩

theorem c3_norm_series_minmax_witness :
    smax [(0 : ℚ), 2, 1] ≠ smin [(0 : ℚ), 2, 1] ∧
    (norm_series [(0 : ℚ), 2, 1] =
        [(0 : ℚ), 2, 1].map
          (fun v => (v - smin [(0 : ℚ), 2, 1]) / (smax [(0 : ℚ), 2, 1] - smin [(0 : ℚ), 2, 1])) ∧
      smin (norm_series [(0 : ℚ), 2, 1]) = 0 ∧
      smax (norm_series [(0 : ℚ), 2, 1]) = 1 ∧
      (norm_series [(0 : ℚ), 2, 1]).all (fun v => decide (0 ≤ v) && decide (v ≤ 1)) = true) :=
  have h : smax [(0 : ℚ), 2, 1] ≠ smin [(0 : ℚ), 2, 1] := by
    norm_num [smax, smin, List.foldl, max_def, min_def]
  ⟨h, c3_norm_series_minmax [(0 : ℚ), 2, 1] h⟩

/-- C4: for a constant column (`max == min`, including the single-row
case) the normalizer is the identity — the original values are returned
unchanged, with no error and no forcing to 0 or 1 (lines 215-218). -/
theorem c4_constant_column_identity (s : List ℚ) (h : smax s = smin s) :
    norm_series s = s := by
  rw [norm_series, if_neg (not_not_intro h)]

theorem c4_constant_column_identity_witness :
    smax [(5 : ℚ), 5, 5] = smin [(5 : ℚ), 5, 5] ∧
    norm_series [(5 : ℚ), 5, 5] = [(5 : ℚ), 5, 5] :=
  have h : smax [(5 : ℚ), 5, 5] = smin [(5 : ℚ), 5, 5] := by
    simp [smax, smin, List.foldl]
  ⟨h, c4_constant_column_identity [(5 : ℚ), 5, 5] h⟩

theorem mk_data (s : String) : String.mk s.data = s := rfl

theorem splitSep_ne_nil (sep : Char) (l : List Char) : splitSep sep l ≠ [] := by
  cases l with
  | nil => simp [splitSep]
  | cons c cs =>
    rw [splitSep]
    split
    · simp
    · split <;> simp

theorem splitSep_no_sep (sep : Char) (x : List Char) (h : sep ∉ x) :
    splitSep sep x = [x] := by
  induction x with
  | nil => rfl
  | cons c cs ih =>
    have hc : c ≠ sep := fun hcs => h (hcs ▸ List.mem_cons_self c cs)
    have hcs : sep ∉ cs := fun hm => h (List.mem_cons_of_mem c hm)
    rw [splitSep, ih hcs]
    simp [hc]

theorem splitSep_append_sep (sep : Char) (x rest : List Char) (h : sep ∉ x) :
    splitSep sep (x ++ sep :: rest) = x :: splitSep sep rest := by
  induction x with
  | nil =>
    simp only [List.nil_append]
    rw [splitSep]
    split
    next heq => exact absurd heq (splitSep_ne_nil sep rest)
    next r rs heq => rw [if_pos rfl, heq]
  | cons c cs ih =>
    have hc : c ≠ sep := fun hcs => h (hcs ▸ List.mem_cons_self c cs)
    have hcs : sep ∉ cs := fun hm => h (List.mem_cons_of_mem c hm)
    simp only [List.cons_append]
    rw [splitSep, ih hcs]
    simp [hc]

theorem splitSep_joinSep (sep : Char) (xss : List (List Char)) (hne : xss ≠ [])
    (hall : ∀ x ∈ xss, sep ∉ x) : splitSep sep (joinSep sep xss) = xss := by
  induction xss with
  | nil => exact absurd rfl hne
  | cons x xs ih =>
    cases xs with
    | nil =>
      rw [joinSep]
      exact splitSep_no_sep sep x (hall x (List.mem_cons_self x []))
    | cons y ys =>
      rw [joinSep, splitSep_append_sep sep x _ (hall x (List.mem_cons_self _ _)),
        ih (by simp) (fun z hz => hall z (List.mem_cons_of_mem x hz))]

theorem joinSep_concat_nil (sep : Char) (xss : List (List Char)) (hne : xss ≠ []) :
    joinSep sep (xss ++ [[]]) = joinSep sep xss ++ [sep] := by
  induction xss with
  | nil => exact absurd rfl hne
  | cons x xs ih =>
    cases xs with
    | nil => rfl
    | cons y ys =>
      show joinSep sep (x :: y :: (ys ++ [[]])) = joinSep sep (x :: y :: ys) ++ [sep]
      rw [joinSep,
        show joinSep sep (y :: (ys ++ [[]])) = joinSep sep (y :: ys) ++ [sep] from ih (by simp),
        joinSep]
      simp

theorem not_mem_joinSep (sep c : Char) (hc : c ≠ sep) (xss : List (List Char))
    (hall : ∀ x ∈ xss, c ∉ x) : c ∉ joinSep sep xss := by
  induction xss with
  | nil => simp [joinSep]
  | cons x xs ih =>
    cases xs with
    | nil =>
      rw [joinSep]
      exact hall x (List.mem_cons_self x [])
    | cons y ys =>
      rw [joinSep]
      intro hmem
      rcases List.mem_append.mp hmem with h | h
      · exact hall x (List.mem_cons_self _ _) h
      · rcases List.mem_cons.mp h with rfl | h
        · exact hc rfl
        · exact ih (fun z hz => hall z (List.mem_cons_of_mem x hz)) h

theorem filter_nonempty_concat (lines : List (List Char)) (h : ∀ l ∈ lines, l ≠ []) :
    (lines ++ [[]]).filter (fun l => !l.isEmpty) = lines := by
  rw [List.filter_append]
  have h2 : ([[]] : List (List Char)).filter (fun l => !l.isEmpty) = [] := rfl
  rw [h2, List.append_nil]
  apply List.filter_eq_self.mpr
  intro l hl
  simpa using h l hl

theorem parse_line (row : List String) (hcells : ∀ cell ∈ row, ',' ∉ cell.data)
    (hrow_ne : row ≠ []) :
    (splitSep ',' (csv_line row)).map String.mk = row := by
  have hrne : row.map String.data ≠ [] := by
    intro hh
    exact hrow_ne (List.map_eq_nil_iff.mp hh)
  rw [csv_line, splitSep_joinSep ',' _ hrne ?hall]
  case hall =>
    intro x hx
    obtain ⟨cell, hcell, rfl⟩ := List.mem_map.mp hx
    exact hcells cell hcell
  rw [List.map_map]
  exact List.map_id'' (fun s => rfl) row

theorem csv_safe_line_ne (columns : List String) (rows : List (List String))
    (h : csv_safe columns rows = true) (row : List String) (hrow : row ∈ columns :: rows) :
    csv_line row ≠ [] := by
  rw [csv_safe, List.all_eq_true] at h
  have := h row hrow
  rw [Bool.and_eq_true] at this
  intro hnil
  rw [hnil] at this
  exact (by simp at this)

theorem csv_safe_cells (columns : List String) (rows : List (List String))
    (h : csv_safe columns rows = true) (row : List String) (hrow : row ∈ columns :: rows) :
    ∀ cell ∈ row, ',' ∉ cell.data ∧ '\n' ∉ cell.data := by
  rw [csv_safe, List.all_eq_true] at h
  have hr := h row hrow
  rw [Bool.and_eq_true, List.all_eq_true] at hr
  intro cell hcell
  have hc := hr.2 cell hcell
  rw [Bool.and_eq_true, Bool.not_eq_true', Bool.not_eq_true'] at hc
  constructor
  · intro hm
    have h1 : cell.data.contains ',' = true := List.elem_iff.mpr hm
    rw [hc.1] at h1
    exact Bool.false_ne_true h1
  · intro hm
    have h2 : cell.data.contains '\n' = true := List.elem_iff.mpr hm
    rw [hc.2] at h2
    exact Bool.false_ne_true h2

theorem map_mem_id {α : Type _} (l : List α) (f : α → α) (h : ∀ a ∈ l, f a = a) :
    l.map f = l := by
  induction l with
  | nil => rfl
  | cons x xs ih =>
    rw [List.map_cons, h x (List.mem_cons_self x xs),
      ih (fun a ha => h a (List.mem_cons_of_mem x ha))]

theorem row_ne_of_safe (columns : List String) (rows : List (List String))
    (h : csv_safe columns rows = true) (row : List String) (hrow : row ∈ columns :: rows) :
    row ≠ [] := by
  intro hc
  apply csv_safe_line_ne columns rows h row hrow
  rw [hc]
  rfl

theorem parse_to_csv (columns : List String) (rows : List (List String))
    (h : csv_safe columns rows = true) :
    parse_csv (to_csv columns rows) = (columns, rows) := by
  have hlines_ne : ∀ l ∈ (columns :: rows).map csv_line, l ≠ [] := by
    intro l hl
    obtain ⟨row, hrow, rfl⟩ := List.mem_map.mp hl
    exact csv_safe_line_ne columns rows h row hrow
  have hlines_nosep : ∀ l ∈ (columns :: rows).map csv_line, '\n' ∉ l := by
    intro l hl
    obtain ⟨row, hrow, rfl⟩ := List.mem_map.mp hl
    rw [csv_line]
    apply not_mem_joinSep ',' '\n' (by decide)
    intro x hx
    obtain ⟨cell, hcell, rfl⟩ := List.mem_map.mp hx
    exact (csv_safe_cells columns rows h row hrow cell hcell).2
  have hmapne : (columns :: rows).map csv_line ≠ [] := by simp
  have hdata : (to_csv columns rows).data =
      joinSep '\n' (((columns :: rows).map csv_line) ++ [[]]) := by
    rw [to_csv, joinSep_concat_nil '\n' _ hmapne]
  rw [parse_csv, hdata, splitSep_joinSep '\n' _ (by simp) ?hall,
    filter_nonempty_concat _ hlines_ne, List.map_cons]
  case hall =>
    intro x hx
    rcases List.mem_append.mp hx with hx | hx
    · exact hlines_nosep x hx
    · rcases List.mem_cons.mp hx with rfl | hx
      · simp
      · exact absurd hx (List.not_mem_nil x)
  show ((splitSep ',' (csv_line columns)).map String.mk,
    (rows.map csv_line).map (fun l => (splitSep ',' l).map String.mk)) = (columns, rows)
  rw [parse_line columns
      (fun cell hcell => (csv_safe_cells columns rows h columns (List.mem_cons_self _ _) cell hcell).1)
      (row_ne_of_safe columns rows h columns (List.mem_cons_self _ _)),
    List.map_map]
  simp only [Function.comp_def]
  rw [map_mem_id rows _ (fun row hrow =>
      parse_line row
        (fun cell hcell => (csv_safe_cells columns rows h row (List.mem_cons_of_mem _ hrow) cell hcell).1)
        (row_ne_of_safe columns rows h row (List.mem_cons_of_mem _ hrow)))]

/-- C9: serializing a Result Table to CSV (UTF-8 text, header row of
column names, one line per row, no index column — line 161) and
re-parsing the text reproduces the same column order, row order, and
cell values in their rendered textual form, for any table whose rendered
cells need no CSV quoting. -/
theorem c9_csv_round_trip (t : Table) (h : csv_safe t.columns (table_cells t) = true) :
    parse_csv (table_to_csv t) = (t.columns, table_cells t) :=
  parse_to_csv t.columns (table_cells t) h

/-- A sample Result Table used to exercise the CSV round trip. -/
def t9 : Table :=
  { columns := ["DAILY_WEATHER_ID", "RECORD_DATE", "TEMP_AVG"],
    rows := [[("DAILY_WEATHER_ID", Value.num 1), ("RECORD_DATE", Value.date 737425),
      ("TEMP_AVG", Value.num 5)],
      [("DAILY_WEATHER_ID", Value.num 2), ("RECORD_DATE", Value.date 737426),
        ("TEMP_AVG", Value.num 7)]] }

theorem c9_csv_round_trip_witness :
    csv_safe t9.columns (table_cells t9) = true ∧
    parse_csv (table_to_csv t9) = (t9.columns, table_cells t9) :=
  ⟨by decide, c9_csv_round_trip t9 (by decide)⟩

/-- C8 counterexample: at a concrete input, the call corresponding to
`pd.read_sql(query, conn)` (line 141) passes an empty bound-parameter
list, while the country code and both date bounds occur single-quoted
inside the query text itself — they are interpolated into the string
(lines 134-135), not passed as literal-bound parameters. -/
theorem c8_no_bound_parameters :
    (read_sql_call (build_query "WDB" "WSCH" Frequency.daily ["TEMP_AVG"] "EE"
      "2020-01-01" "2020-01-03")).2 = [] ∧
    occurs_in "\x27EE\x27".data
      (build_query "WDB" "WSCH" Frequency.daily ["TEMP_AVG"] "EE"
        "2020-01-01" "2020-01-03").data = true ∧
    occurs_in "\x272020-01-01\x27".data
      (build_query "WDB" "WSCH" Frequency.daily ["TEMP_AVG"] "EE"
        "2020-01-01" "2020-01-03").data = true ∧
    occurs_in "\x272020-01-03\x27".data
      (build_query "WDB" "WSCH" Frequency.daily ["TEMP_AVG"] "EE"
        "2020-01-01" "2020-01-03").data = true := by
  refine ⟨rfl, ?_, ?_, ?_⟩ <;> decide

/-- C8 (amended): the identifiers interpolated into the query text are
validated — the table name is one of the two fixed names, and whenever
every selected column passed the multiselect's option check (membership
in `selectable_columns`, lines 118/120), every projected identifier is
either a fixed hidden column or a member of the resolved Column Set.
The country code and date bounds, however, are interpolated into the
query text as quoted literals: the parameter list passed with the
statement is empty. -/
theorem c8_identifier_validation (dbName schemaName : String) (freq : Frequency)
    (all_columns : List String) (selected : List String) (country d0 d1 : String)
    (hsel : selected.all (fun c => (selectable_columns freq all_columns).contains c) = true) :
    (columns_to_select freq selected).all
      (fun c => (hidden_columns freq).contains c || all_columns.contains c) = true ∧
    (table_name freq = "weather_daily" ∨ table_name freq = "weather_weekly") ∧
    (read_sql_call (build_query dbName schemaName freq selected country d0 d1)).2 = [] := by
  refine ⟨?_, ?_, rfl⟩
  · rw [List.all_eq_true]
    intro c hc
    rw [columns_to_select] at hc
    rw [Bool.or_eq_true]
    rcases List.mem_append.mp hc with hmem | hmem
    · exact Or.inl (List.elem_iff.mpr hmem)
    · rw [List.all_eq_true] at hsel
      have hsc : c ∈ selectable_columns freq all_columns := List.elem_iff.mp (hsel c hmem)
      rw [selectable_columns] at hsc
      exact Or.inr (List.elem_iff.mpr (List.mem_of_mem_filter hsc))
  · cases freq
    · exact Or.inl rfl
    · exact Or.inr rfl

theorem c8_identifier_validation_witness :
    (["TEMP_AVG"].all (fun c => (selectable_columns Frequency.daily
      ["DAILY_WEATHER_ID", "RECORD_DATE", "COUNTRY_CODE", "TEMP_AVG"]).contains c) = true) ∧
    ((columns_to_select Frequency.daily ["TEMP_AVG"]).all
      (fun c => (hidden_columns Frequency.daily).contains c ||
        ["DAILY_WEATHER_ID", "RECORD_DATE", "COUNTRY_CODE", "TEMP_AVG"].contains c) = true ∧
      (table_name Frequency.daily = "weather_daily" ∨
        table_name Frequency.daily = "weather_weekly") ∧
      (read_sql_call (build_query "WDB" "WSCH" Frequency.daily ["TEMP_AVG"] "EE"
        "2020-01-01" "2020-01-03")).2 = []) :=
  ⟨by decide,
    c8_identifier_validation "WDB" "WSCH" Frequency.daily
      ["DAILY_WEATHER_ID", "RECORD_DATE", "COUNTRY_CODE", "TEMP_AVG"]
      ["TEMP_AVG"] "EE" "2020-01-01" "2020-01-03" (by decide)⟩

end WD
